import Mathlib

/-!
Verification of the caio cooperative coroutine runtime against its
natural-language specification.

The development shallowly embeds the C sources:
  * `src/taskpool.c`  — fixed-capacity task pool (lease / release / next / init)
  * `src/caio.c`      — task and call-stack lifecycle, stepper, scheduler loop
  * `src/caio/caio.h` — bitmask statuses and the coroutine error-protocol macros
  * `src/caio/io_uring.c` — ring setup result propagation

Machine integers are modelled as `Nat` with explicit reduction modulo `2 ^ 64`
where C `size_t` wraparound matters.  Fallible C calls (`malloc`, `mmap`,
syscalls) are modelled by explicit oracle parameters carrying the outcome, and
the indeterminate contents of freshly `malloc`ed memory are modelled by
passing the garbage value in as a parameter, since the C code may read it.
-/

/-! ### Task statuses

Bit-flag statuses from `src/caio/caio.h` (`enum caio_taskstatus`).
`src/taskpool.c` filters slots with `task->status & statuses`, which requires
exactly these single-bit values.  `taskpool.c` spells the third flag
`CAIO_WAITINGIO`; we keep the header's name `CAIO_WAITING` for the same bit. -/

def CAIO_IDLE : Nat := 1

def CAIO_RUNNING : Nat := 2

def CAIO_WAITING : Nat := 4

def CAIO_TERMINATING : Nat := 8

def CAIO_TERMINATED : Nat := 16

/-- `struct caio_task` from `src/caio/caio.h`: status flag, error number and
the `current` call pointer (modelled as an optional abstract pointer). -/
structure caio_task where
  status : Nat
  eno : Int
  current : Option Nat
deriving DecidableEq

/-- The `TASK_RESET(t, s)` macro from `src/taskpool.c`: set the status, clear
the error number and null the current-call pointer. -/
def TASK_RESET (s : Nat) : caio_task :=
  { status := s, eno := 0, current := none }

/-- `struct caio_taskpool`: the slot array, the `last` pointer (kept as an
offset from `tasks`, so `caio_taskpool_init` stores `last = size`), the live
count (`size_t`, tracked modulo `2 ^ 64`) and the capacity. -/
structure caio_taskpool where
  tasks : List caio_task
  last : Nat
  count : Nat
  size : Nat
deriving DecidableEq

/-- `2 ^ 64`, the modulus of C `size_t` arithmetic. -/
def W64 : Nat := 2 ^ 64

/-- Result of the pointer scan in `caio_taskpool_next`: a matching slot index,
the end-of-scan NULL, or an out-of-bounds read of slot `i` (a read past the
`calloc`ed array, whose contents the C abstract machine does not define). -/
inductive NextRes where
  | found (i : Nat)
  | notFound
  | oob (i : Nat)
deriving DecidableEq

/-- The scan loop of `caio_taskpool_next` (`src/taskpool.c`):
`while (task <= pool->last) { if (task->status & statuses) return task; task++; }`.
The fuel argument counts the remaining iterations, `pool.last + 1 - i` at
entry, so `fuel = 0` is exactly the exit condition `task > pool->last`.
Reading a slot at or beyond `pool.tasks.length` is the out-of-bounds case. -/
def nextFrom (pool : caio_taskpool) (statuses : Nat) : Nat → Nat → NextRes
  | _, 0 => .notFound
  | i, fuel + 1 =>
    match pool.tasks[i]? with
    | none => .oob i
    | some t =>
      if t.status &&& statuses ≠ 0 then .found i
      else nextFrom pool statuses (i + 1) fuel

/-- `caio_taskpool_next(pool, task, statuses)` from `src/taskpool.c`: a NULL
cursor starts at `pool->tasks`, otherwise the scan starts at the cursor
itself; slots are visited in ascending address order up to `pool->last`
inclusive. -/
def caio_taskpool_next (pool : caio_taskpool) (cursor : Option Nat)
    (statuses : Nat) : NextRes :=
  let start := cursor.getD 0
  nextFrom pool statuses start (pool.last + 1 - start)

/-- Result of `caio_taskpool_lease`: a leased slot and the updated pool, the
NULL pool-exhausted signal, or the effect of the scan reading out of
bounds. -/
inductive LeaseRes where
  | ok (pool : caio_taskpool) (i : Nat)
  | null
  | oob (i : Nat)
deriving DecidableEq

/-- `caio_taskpool_lease` from `src/taskpool.c`: scan for the first slot whose
status intersects `CAIO_IDLE`, `TASK_RESET` it to `CAIO_RUNNING` and increment
the live count. -/
def caio_taskpool_lease (pool : caio_taskpool) : LeaseRes :=
  match caio_taskpool_next pool none CAIO_IDLE with
  | .found i =>
      .ok { pool with
              tasks := pool.tasks.set i (TASK_RESET CAIO_RUNNING),
              count := (pool.count + 1) % W64 } i
  | .notFound => .null
  | .oob i => .oob i

/-- `caio_taskpool_release(pool, task)` from `src/taskpool.c` for non-NULL
arguments (the NULL guards return `-1` without touching the pool): the slot is
`TASK_RESET` to `CAIO_IDLE` and the `size_t` live count is decremented
unconditionally (wrapping modulo `2 ^ 64` at zero).  The task pointer is
modelled as the slot index `i`. -/
def caio_taskpool_release (pool : caio_taskpool) (i : Nat) :
    Int × caio_taskpool :=
  (0, { pool with
          tasks := pool.tasks.set i (TASK_RESET CAIO_IDLE),
          count := (pool.count + (W64 - 1)) % W64 })

/-- The defensive reset loop at the end of `caio_taskpool_init`: repeatedly
scan from the cursor for any slot whose status intersects
`CAIO_RUNNING | CAIO_WAITING | CAIO_TERMINATING | CAIO_TERMINATED`, reset it
to `CAIO_IDLE` and continue one past it.  The boolean records whether a scan
ran past the end of the slot array.  Fuel bounds the loop iterations; the
loop advances its cursor each round, so `pool.last + 2` rounds suffice. -/
def resetLoop (pool : caio_taskpool) : Nat → Nat → caio_taskpool × Bool
  | _, 0 => (pool, false)
  | cursor, fuel + 1 =>
    match caio_taskpool_next pool (some cursor)
        (CAIO_RUNNING ||| CAIO_WAITING ||| CAIO_TERMINATING |||
         CAIO_TERMINATED) with
    | .found i =>
        resetLoop { pool with tasks := pool.tasks.set i (TASK_RESET CAIO_IDLE) }
          (i + 1) fuel
    | .notFound => (pool, false)
    | .oob _ => (pool, true)

/-- `caio_taskpool_init(pool, size)` from `src/taskpool.c`, with `calloc`
assumed to succeed (the claims quantify over successfully initialized pools):
the slot array is zero-filled (`calloc` then `memset`), `last` is set to
`tasks + size`, the count to `0`, and the defensive reset loop runs.  The
boolean reports whether that loop's scan read past the array. -/
def caio_taskpool_init (size : Nat) : caio_taskpool × Bool :=
  let p : caio_taskpool :=
    { tasks := List.replicate size { status := 0, eno := 0, current := none },
      last := size, count := 0, size := size }
  resetLoop p 0 (size + 2)

/-! ### Claims C1 and C7: lease on a fresh pool, scan bounds -/

/-- C1.  The claim states that on a freshly initialized pool of capacity `C`
every one of the first `C` leases succeeds.  In the code, `calloc` leaves
every slot with status `0`, which intersects no status mask, and the
defensive reset loop of `caio_taskpool_init` (whose mask omits both `0` and
`CAIO_IDLE`) therefore resets nothing — so no slot is ever `CAIO_IDLE` and
already the first lease fails: with capacity `1` the `CAIO_IDLE` scan matches
no slot and runs one past the array instead of succeeding.  Every slot of the
fresh pool indeed still has status `0`. -/
theorem lease_on_fresh_pool_finds_no_slot :
    caio_taskpool_lease (caio_taskpool_init 1).1 = .oob 1 ∧
    (caio_taskpool_init 1).1.tasks.all (fun t => t.status == 0) = true := by
  decide

/-- C7.  The claim states that `caio_taskpool_next` accesses only slot indices
`0` through `C - 1` and never one past the end.  The code sets
`pool->last = pool->tasks + size` and scans with `task <= pool->last`, so a
scan that matches no slot reads the slot at index `size`: on a fresh pool of
capacity `1` the `CAIO_IDLE` scan from a NULL cursor reads index `1`, one past
the single allocated slot. -/
theorem next_scans_one_past_end :
    caio_taskpool_next (caio_taskpool_init 1).1 none CAIO_IDLE = .oob 1 := by
  decide

/-! ### Claim C4: release after lease -/

/-- A one-slot pool whose slot is `CAIO_IDLE`, so a lease succeeds. -/
def c4pool : caio_taskpool :=
  { tasks := [{ status := CAIO_IDLE, eno := 0, current := none }],
    last := 1, count := 0, size := 1 }

/-- The pool `c4pool` after its slot is leased. -/
def c4leased : caio_taskpool :=
  { tasks := [{ status := CAIO_RUNNING, eno := 0, current := none }],
    last := 1, count := 1, size := 1 }

/-- C4, counterexample.  The claim states that releasing an already-released
task a second time leaves the pool's count unchanged.  In the code
`caio_taskpool_release` decrements `pool->count` unconditionally, so the
second release decrements it again (wrapping the `size_t` below zero):
leasing the single slot of `c4pool` and releasing it restores the count to
`0`, and releasing the same slot once more changes the count to
`2 ^ 64 - 1`. -/
theorem second_release_changes_count :
    caio_taskpool_lease c4pool = .ok c4leased 0 ∧
    (caio_taskpool_release c4leased 0).2.count = c4pool.count ∧
    (caio_taskpool_release (caio_taskpool_release c4leased 0).2 0).2.count ≠
      (caio_taskpool_release c4leased 0).2.count := by
  decide

theorem nextFrom_found_getElem {pool : caio_taskpool} {statuses i j fuel : Nat}
    (h : nextFrom pool statuses i fuel = .found j) :
    ∃ t, pool.tasks[j]? = some t ∧ t.status &&& statuses ≠ 0 := by
  induction fuel generalizing i with
  | zero => simp [nextFrom] at h
  | succ n ih =>
    cases hg : pool.tasks[i]? with
    | none => simp [nextFrom, hg] at h
    | some t =>
      simp only [nextFrom, hg] at h
      by_cases hs : t.status &&& statuses ≠ 0
      · rw [if_pos hs] at h
        cases h
        exact ⟨t, hg, hs⟩
      · rw [if_neg hs] at h
        exact ih h

/-- The `size_t` count after a lease-then-release round trip is the original
count again. -/
theorem lease_release_count (c : Nat) (hc : c < W64) :
    ((c + 1) % W64 + (W64 - 1)) % W64 = c := by
  rcases Nat.lt_or_ge (c + 1) W64 with h | h
  · rw [Nat.mod_eq_of_lt h]
    have h2 : c + 1 + (W64 - 1) = c + W64 := by
      have : (1:Nat) ≤ W64 := by decide
      omega
    rw [h2, Nat.add_mod_right, Nat.mod_eq_of_lt hc]
  · have h2 : c + 1 = W64 := by omega
    rw [h2, Nat.mod_self, Nat.zero_add, Nat.mod_eq_of_lt (by omega)]
    omega

/-- An unconditional `size_t` decrement always changes a count below
`2 ^ 64`. -/
theorem release_dec_ne (c : Nat) (hc : c < W64) : (c + (W64 - 1)) % W64 ≠ c := by
  rcases Nat.eq_zero_or_pos c with h0 | h0
  · subst h0
    rw [Nat.zero_add, Nat.mod_eq_of_lt (by decide)]
    decide
  · have h2 : c + (W64 - 1) = (c - 1) + W64 := by
      have : (1:Nat) ≤ W64 := by decide
      omega
    rw [h2, Nat.add_mod_right, Nat.mod_eq_of_lt (by omega)]
    omega

/-- C4, amended.  Releasing a just-leased slot restores the live count to its
pre-lease value and resets the slot to `CAIO_IDLE` with cleared error and
NULL current pointer; but the operation is not idempotent: a second release
of the same slot leaves the slot array unchanged while decrementing the count
again. -/
theorem release_after_lease_restores (pool p : caio_taskpool) (i : Nat)
    (hc : pool.count < W64)
    (hl : caio_taskpool_lease pool = .ok p i) :
    ((caio_taskpool_release p i).2.count = pool.count ∧
      (caio_taskpool_release p i).2.tasks[i]? = some (TASK_RESET CAIO_IDLE)) ∧
    ((caio_taskpool_release (caio_taskpool_release p i).2 i).2.tasks =
        (caio_taskpool_release p i).2.tasks ∧
      (caio_taskpool_release (caio_taskpool_release p i).2 i).2.count ≠
        (caio_taskpool_release p i).2.count) := by
  unfold caio_taskpool_lease at hl
  cases hn : caio_taskpool_next pool none CAIO_IDLE with
  | found j =>
    rw [hn] at hl
    injection hl with hp hij
    subst hij
    subst hp
    obtain ⟨t, hget, -⟩ := nextFrom_found_getElem hn
    have hjlt : j < pool.tasks.length := by
      by_contra hge
      rw [List.getElem?_eq_none (Nat.le_of_not_lt hge)] at hget
      exact Option.noConfusion hget
    refine ⟨⟨?_, ?_⟩, ?_, ?_⟩
    · simp only [caio_taskpool_release]
      exact lease_release_count pool.count hc
    · simp only [caio_taskpool_release]
      rw [List.getElem?_set_self]
      simpa using hjlt
    · simp only [caio_taskpool_release]
      rw [List.set_set]
    · simp only [caio_taskpool_release]
      rw [lease_release_count pool.count hc]
      exact release_dec_ne pool.count hc
  | notFound => rw [hn] at hl; exact absurd hl (by simp)
  | oob j => rw [hn] at hl; exact absurd hl (by simp)

/-- C4, witness: the amended theorem applied to the concrete one-slot pool
`c4pool`. -/
theorem release_after_lease_restores_witness :
    (c4pool.count < W64 ∧ caio_taskpool_lease c4pool = .ok c4leased 0) ∧
    (((caio_taskpool_release c4leased 0).2.count = c4pool.count ∧
      (caio_taskpool_release c4leased 0).2.tasks[0]? =
        some (TASK_RESET CAIO_IDLE)) ∧
    ((caio_taskpool_release (caio_taskpool_release c4leased 0).2 0).2.tasks =
        (caio_taskpool_release c4leased 0).2.tasks ∧
      (caio_taskpool_release (caio_taskpool_release c4leased 0).2 0).2.count ≠
        (caio_taskpool_release c4leased 0).2.count)) :=
  ⟨⟨by decide, by decide⟩,
    release_after_lease_restores c4pool c4leased 0 (by decide) (by decide)⟩

/-! ### The task and call-stack lifecycle of `src/caio.c`

`src/caio.c` is the scheduler-level variant of the runtime: tasks of type
`struct caiotask` own a bounded call stack of `struct caiocall` frames and
are registered in the global fixed-size table `_tasks`.  The generic
container sources (`generic_stack.c`, `generic_array.c`) are included by
`caio.c` but are not under `src/`; the spec declares them out-of-scope
"generic growable-array/stack container primitives", so their operations are
modelled below from the spec's words. -/

/-- The status a coroutine invocation reports back to `caio_task_step`
(`enum caiocoro_status` in the missing header): `ccs_done` when the coroutine
body ran to completion, otherwise it suspended and will be resumed. -/
inductive caiocoro_status where
  | ccs_done
  | ccs_again
deriving DecidableEq

/-- `struct caiocall`: resume line, coroutine reference and caller state (the
latter two abstracted to identifiers).  `line` is an `int`; `caio_call_new`
never writes it, so a freshly created frame carries whatever value the
`malloc`ed memory held. -/
structure caiocall where
  line : Int
  coro : Nat
  state : Nat
deriving DecidableEq

/-- Modelled from the spec: the call stack of a task, a bounded
last-in-first-out container (`generic_stack.c` is not under `src/`; the spec
describes "an owned growable stack" with a "call-stack depth bound", the
innermost frame last). -/
structure caiocall_stack where
  items : List caiocall
  size : Nat
deriving DecidableEq

/-- Modelled from the spec: `caiocall_stack_push` appends the frame as the new
innermost entry and fails (C return `-1`, here `none`) when the depth bound is
reached. -/
def caiocall_stack_push (s : caiocall_stack) (c : caiocall) :
    Option caiocall_stack :=
  if s.items.length < s.size then some { s with items := s.items ++ [c] }
  else none

/-- Modelled from the spec: `caiocall_stack_last` yields the innermost
(last-pushed) frame; an empty stack has no valid frame to yield. -/
def caiocall_stack_last (s : caiocall_stack) : Option caiocall :=
  s.items.getLast?

/-- Modelled from the spec: `caiocall_stack_pop` removes the innermost
frame. -/
def caiocall_stack_pop (s : caiocall_stack) : caiocall_stack :=
  { s with items := s.items.dropLast }

/-- `struct caiotask` from `src/caio.c`: slot index in the global task table,
the active-frame count `running_coros`, and the call stack. -/
structure caiotask where
  index : Nat
  running_coros : Nat
  callstack : caiocall_stack
deriving DecidableEq

/-- Modelled from the spec: the global task table `_tasks`, a "fixed-capacity
preallocated table of Task slots" holding task pointers, with NULL (`none`)
holes where no task is registered. -/
structure caiotask_array where
  slots : List (Option caiotask)
deriving DecidableEq

/-- The table capacity (`_tasks.size`). -/
def caiotask_array.size (a : caiotask_array) : Nat := a.slots.length

/-- The number of registered tasks (`_tasks.count`). -/
def caiotask_array.taskcount (a : caiotask_array) : Nat :=
  a.slots.countP (fun s => s.isSome)

/-- Modelled from the spec: `caiotask_array_get`, NULL for a hole or an index
past the table. -/
def caiotask_array.get (a : caiotask_array) (i : Nat) : Option caiotask :=
  (a.slots[i]?).join

/-- Modelled from the spec: `caiotask_array_del` clears slot `i`. -/
def caiotask_array.del (a : caiotask_array) (i : Nat) : caiotask_array :=
  ⟨a.slots.set i none⟩

/-- Modelled from the spec: `caiotask_array_append` registers the task in the
first free slot (first-fit by ascending index) and returns its index, or
fails (`-1`, here `none`) when the table is full. -/
def firstNone : List (Option caiotask) → Option Nat
  | [] => none
  | none :: _ => some 0
  | some _ :: rest => (firstNone rest).map (· + 1)

/-- Modelled from the spec: see `firstNone`. -/
def caiotask_array.append (a : caiotask_array) (t : caiotask) :
    Option (Nat × caiotask_array) :=
  (firstNone a.slots).map (fun i => (i, ⟨a.slots.set i (some t)⟩))

/-- Heap events performed by the lifecycle functions: freeing a call frame and
freeing the task object itself.  `free(task)` appearing twice in one trace is
a double free. -/
inductive CEvent where
  | freeCall (c : caiocall)
  | freeTask
deriving DecidableEq

/-- `_caio_task_dispose` from `src/caio.c`: pop and free every remaining
frame (innermost first), deinit the stack, delete the task's slot from the
global table and free the task. -/
def _caio_task_dispose (a : caiotask_array) (t : caiotask) :
    caiotask_array × List CEvent :=
  (a.del t.index,
    (t.callstack.items.reverse.map CEvent.freeCall) ++ [CEvent.freeTask])

/-- `caio_call_new(task, coro, state)` from `src/caio.c`.  `freshCall` is the
`malloc` oracle: `none` when the allocation fails, otherwise the
indeterminate contents of the fresh memory.  The code sets `call->coro` and
`call->state` but never `call->line`, and pushes the frame; on either
allocation or push failure it disposes the whole task and returns `-1`.
Result: C return value, table, surviving task, heap events. -/
def caio_call_new (freshCall : Option caiocall) (a : caiotask_array)
    (t : caiotask) (coro : Nat) (state : Nat) :
    Int × caiotask_array × Option caiotask × List CEvent :=
  match freshCall with
  | none =>
    let d := _caio_task_dispose a t
    (-1, d.1, none, d.2)
  | some g =>
    let call : caiocall := { g with coro := coro, state := state }
    match caiocall_stack_push t.callstack call with
    | none =>
      let d := _caio_task_dispose a t
      (-1, d.1, none, d.2)
    | some st =>
      (0, a, some { t with callstack := st,
                           running_coros := t.running_coros + 1 }, [])

/-- `caio_task_new(coro, state)` from `src/caio.c`.  Oracles: `freshTaskOk`
(task `malloc`), `garbageIndex` (the indeterminate `task->index` of the fresh
memory, read by the rollback path when table registration fails),
`stackInitOk` (call-stack allocation), `callstack_size` (the global
`_callstack_size`), `freshCall` (frame `malloc`, as in `caio_call_new`).
After the initial frame is created the updated task is written back to its
slot, modelling the table's pointer to the mutated task.  Note that when
`caio_call_new` fails it has already disposed the task, and `caio_task_new`
then disposes the same task again. -/
def caio_task_new (freshTaskOk : Bool) (garbageIndex : Nat)
    (stackInitOk : Bool) (callstack_size : Nat) (freshCall : Option caiocall)
    (a : caiotask_array) (coro : Nat) (state : Nat) :
    Int × caiotask_array × List CEvent :=
  if freshTaskOk = false then (-1, a, [])
  else
    let t0 : caiotask :=
      { index := garbageIndex, running_coros := 0,
        callstack := { items := [], size := callstack_size } }
    if stackInitOk = false then (-1, a, [CEvent.freeTask])
    else
      match caiotask_array.append a t0 with
      | none =>
        let d := _caio_task_dispose a t0
        (-1, d.1, d.2)
      | some (idx, a1) =>
        let t1 := { t0 with index := idx }
        let a2 : caiotask_array := ⟨a1.slots.set idx (some t1)⟩
        match caio_call_new freshCall a2 t1 coro state with
        | (r, a3, topt, ev) =>
          if r ≠ 0 then
            let d := _caio_task_dispose a3 t1
            (-1, d.1, ev ++ d.2)
          else
            match topt with
            | some t2 => (0, ⟨a3.slots.set idx (some t2)⟩, ev)
            | none => (0, a3, ev)

/-- The semantics of one coroutine invocation `call->coro(task, call->state)`:
given the invoked frame and the task it belongs to, it yields the mutated
task and the reported status.  Per the spec (§4.1, §6) a coroutine body's
effects are limited to its own task. -/
def CoroSem := caiocall → caiotask → caiotask × caiocoro_status

/-- The observable outcome of `caio_task_step`: the frame that was invoked,
the frames freed (in free order), the task afterwards (`none` when it was
disposed) and the global table afterwards. -/
structure StepRes where
  invoked : caiocall
  freed : List caiocall
  taskAfter : Option caiotask
  arrAfter : caiotask_array
deriving DecidableEq

/-- `caio_task_step(task)` from `src/caio.c`: take the innermost frame with
`caiocall_stack_last` and invoke it — with no guard, so a task whose call
stack is empty has no frame to invoke and the unconditional `call->coro`
dereference is invalid (`none`).  If the invocation reports `ccs_done`, pop
the (then-)innermost frame, free the invoked frame and decrement
`running_coros`; if `running_coros` is then zero, `_caio_task_dispose` the
task (freeing any remaining frames and deleting its table slot). -/
def caio_task_step (sem : CoroSem) (a : caiotask_array) (t : caiotask) :
    Option StepRes :=
  match caiocall_stack_last t.callstack with
  | none => none
  | some call =>
    let r := sem call t
    let t2 :=
      if r.2 = caiocoro_status.ccs_done then
        { r.1 with callstack := caiocall_stack_pop r.1.callstack,
                   running_coros := r.1.running_coros - 1 }
      else r.1
    let fr := if r.2 = caiocoro_status.ccs_done then [call] else []
    if t2.running_coros = 0 then
      some { invoked := call,
             freed := fr ++ t2.callstack.items.reverse,
             taskAfter := none,
             arrAfter := (_caio_task_dispose a t2).1 }
    else
      some { invoked := call, freed := fr, taskAfter := some t2,
             arrAfter := a }

/-! ### Claim C8: frames are created with resume position 0? -/

/-- Contents of the frame `malloc` for the C8 run: the indeterminate `line`
field happens to hold `7`. -/
def c8garbage : caiocall := { line := 7, coro := 0, state := 0 }

/-- A registered task with an empty call stack of capacity 4, about to receive
its first frame. -/
def c8task : caiotask :=
  { index := 0, running_coros := 1, callstack := { items := [], size := 4 } }

/-- The task produced by `caio_call_new` in the C8 run. -/
def c8newtask : Option caiotask :=
  (caio_call_new (some c8garbage) ⟨[some c8task]⟩ c8task 3 4).2.2.1

/-- C8.  The claim states every frame created by `caio_call_new` has its
resume position initialized to `0`.  The code sets `call->coro` and
`call->state` but never writes `call->line`, so the pushed frame keeps the
`malloc` garbage: when the fresh memory holds `7`, the single frame of the
resulting call stack has `line = 7`, not `0`, and `CORO_START`'s
`switch (line)` would not enter its `case 0` branch. -/
theorem call_new_leaves_line_uninitialized :
    c8newtask.map (fun t => t.callstack.items.map (fun c => c.line)) =
      some [7] ∧ (7 : Int) ≠ 0 := by
  decide

/-! ### Claim C3: rollback of a failing task creation -/

/-- C3.  The claim states a failing `caio_task_new` leaves the runtime state
exactly as before, with a failing `caio_call_new` disposing the task exactly
once.  In the code, `caio_call_new` disposes the task on its failure paths
and returns `-1`, whereupon `caio_task_new` disposes the same — already
freed — task a second time: running `caio_task_new` against an empty
one-slot table with the frame `malloc` failing returns `-1` but emits
`free(task)` twice (a double free / use-after-free dispose). -/
theorem task_new_double_free :
    (caio_task_new true 0 true 1 none ⟨[none]⟩ 7 7).1 = -1 ∧
    ((caio_task_new true 0 true 1 none ⟨[none]⟩ 7 7).2.2.count
        CEvent.freeTask) = 2 := by
  decide

/-! ### Claim C6: stepping a task with an empty call stack -/

/-- C6.  The claim states `caio_task_step` is a safe no-op on a task whose
call stack is already empty.  The code has no emptiness guard: it takes
`caiocall_stack_last` of the empty stack — which yields no valid frame — and
unconditionally dereferences the result to invoke `call->coro`.  In the model
this is the invalid outcome `none`: not a no-op, for every invocation
semantics and table state. -/
theorem step_on_empty_callstack_invalid (sem : CoroSem) (a : caiotask_array)
    (t : caiotask) (h : t.callstack.items = []) :
    caio_task_step sem a t = none := by
  unfold caio_task_step caiocall_stack_last
  rw [h]
  rfl

/-- C6, witness: the empty-stack dereference at a concrete task, semantics and
table. -/
theorem step_on_empty_callstack_invalid_witness :
    (({ index := 0, running_coros := 0,
        callstack := { items := [], size := 3 } } : caiotask).callstack.items
          = []) ∧
    caio_task_step (fun _ t => (t, caiocoro_status.ccs_again)) ⟨[]⟩
      { index := 0, running_coros := 0,
        callstack := { items := [], size := 3 } } = none :=
  ⟨rfl, step_on_empty_callstack_invalid (fun _ t => (t, caiocoro_status.ccs_again))
    ⟨[]⟩ _ rfl⟩

/-! ### Claim C2: stepping invokes exactly the innermost frame -/

/-- C2.  For a task with a non-empty call stack, `caio_task_step` invokes
exactly the innermost (last-pushed) frame `c`.  Under the code's invariant
that `running_coros` counts the stacked frames, and the spec's coroutine
discipline (§4.1: an invocation that reports `ccs_done` ran to completion, so
it did not alter the call stack, the frame count or the task's slot index):
when the invocation reports done, exactly that frame — and no other — is
freed, the stack is popped by one and `running_coros` is decremented; and if
the count thereby reaches zero the task is disposed and its slot deleted
from the global table, while otherwise the task survives and the table is
untouched. -/
theorem step_runs_top_frame (sem : CoroSem) (a : caiotask_array)
    (t : caiotask) (c : caiocall)
    (htop : caiocall_stack_last t.callstack = some c)
    (hinv : t.running_coros = t.callstack.items.length)
    (hdone : (sem c t).2 = caiocoro_status.ccs_done →
      (sem c t).1.callstack = t.callstack ∧ (sem c t).1.index = t.index ∧
      (sem c t).1.running_coros = t.running_coros) :
    ∃ res, caio_task_step sem a t = some res ∧
      res.invoked = c ∧
      ((sem c t).2 = caiocoro_status.ccs_done →
        res.freed = [c] ∧
        (1 < t.running_coros →
          ∃ t2, res.taskAfter = some t2 ∧
            t2.callstack.items = t.callstack.items.dropLast ∧
            t2.running_coros = t.running_coros - 1 ∧
            res.arrAfter = a) ∧
        (t.running_coros = 1 →
          res.taskAfter = none ∧
          res.arrAfter = caiotask_array.del a t.index)) := by
  have hne : t.callstack.items ≠ [] := by
    intro hnil
    unfold caiocall_stack_last at htop
    rw [hnil] at htop
    exact Option.noConfusion htop
  have hlen : 1 ≤ t.callstack.items.length := by
    cases hx : t.callstack.items with
    | nil => exact absurd hx hne
    | cons y ys => simp [hx]
  cases hr : (sem c t).2 with
  | ccs_again =>
    have hif : (caiocoro_status.ccs_again = caiocoro_status.ccs_done) = False := by
      simp
    simp only [caio_task_step, htop, hr, hif, if_false]
    by_cases h0 : ((sem c t).1).running_coros = 0
    · rw [if_pos h0]
      exact ⟨_, rfl, rfl, by simp⟩
    · rw [if_neg h0]
      exact ⟨_, rfl, rfl, by simp⟩
  | ccs_done =>
    obtain ⟨hst, hidx, hrc⟩ := hdone hr
    simp only [caio_task_step, htop, hr, caiocall_stack_pop, hst, hrc, hidx,
      if_true]
    rcases Nat.lt_or_ge 1 t.running_coros with hgt | hle
    · rw [if_neg (by omega)]
      refine ⟨_, rfl, rfl, fun _ => ⟨rfl, fun _ => ⟨_, rfl, rfl, rfl, rfl⟩,
        fun h1 => absurd h1 (by omega)⟩⟩
    · have h1 : t.running_coros = 1 := by omega
      have hlone : t.callstack.items.length = 1 := by omega
      obtain ⟨x, hx⟩ := List.length_eq_one.mp hlone
      rw [if_pos (by omega)]
      refine ⟨_, rfl, rfl, fun _ => ⟨?_, fun hgt => absurd hgt (by omega),
        fun _ => ⟨rfl, ?_⟩⟩⟩
      · simp only [hx, List.dropLast_single, List.reverse_nil, List.append_nil]
      · rfl

/-- The single frame of the C2 witness task. -/
def c2call : caiocall := { line := 0, coro := 5, state := 9 }

/-- The C2 witness task: one frame, `running_coros = 1`. -/
def c2task : caiotask :=
  { index := 0, running_coros := 1,
    callstack := { items := [c2call], size := 2 } }

/-- The C2 witness table: the task registered in slot 0. -/
def c2arr : caiotask_array := ⟨[some c2task]⟩

/-- The C2 witness invocation semantics: run to completion without touching
the task. -/
def c2sem : CoroSem := fun _ u => (u, caiocoro_status.ccs_done)

/-- C2, witness: `step_runs_top_frame` at a concrete one-frame task whose
invocation completes, so the frame is popped and the task disposed. -/
theorem step_runs_top_frame_witness :
    (caiocall_stack_last c2task.callstack = some c2call ∧
      c2task.running_coros = c2task.callstack.items.length ∧
      ((c2sem c2call c2task).2 = caiocoro_status.ccs_done →
        (c2sem c2call c2task).1.callstack = c2task.callstack ∧
        (c2sem c2call c2task).1.index = c2task.index ∧
        (c2sem c2call c2task).1.running_coros = c2task.running_coros)) ∧
    (∃ res, caio_task_step c2sem c2arr c2task = some res ∧
      res.invoked = c2call ∧
      ((c2sem c2call c2task).2 = caiocoro_status.ccs_done →
        res.freed = [c2call] ∧
        (1 < c2task.running_coros →
          ∃ t2, res.taskAfter = some t2 ∧
            t2.callstack.items = c2task.callstack.items.dropLast ∧
            t2.running_coros = c2task.running_coros - 1 ∧
            res.arrAfter = c2arr) ∧
        (c2task.running_coros = 1 →
          res.taskAfter = none ∧
          res.arrAfter = caiotask_array.del c2arr c2task.index))) :=
  ⟨⟨rfl, rfl, fun _ => ⟨rfl, rfl, rfl⟩⟩,
    step_runs_top_frame c2sem c2arr c2task c2call rfl rfl
      (fun _ => ⟨rfl, rfl, rfl⟩)⟩

/-! ### Claim C5: the round-robin scheduler loop `caio_forever` -/

/-- The `for (taskindex = 0; taskindex < _tasks.size; taskindex++)` sweep of
`caio_forever` from `src/caio.c`, from index `i` with `fuel = size - i`
iterations left: a NULL slot is skipped (`continue`), an occupied slot's
task is stepped; a surviving task is written back to its slot (in C the slot
pointer sees the mutation in place), a disposed task's slot was already
deleted by `_caio_task_dispose`.  `stepWriteback` is that slot update; the
sweep result carries the table after the sweep and the ascending list of
indices whose task was stepped, `none` modelling a step that dereferenced a
missing frame. -/
def stepWriteback (i : Nat) (res : StepRes) : caiotask_array :=
  match res.taskAfter with
  | some t2 => ⟨res.arrAfter.slots.set i (some t2)⟩
  | none => res.arrAfter

/-- See `stepWriteback`: the table as the sweep continues after stepping the
task in slot `i`. -/
def sweepFrom (sem : CoroSem) : caiotask_array → Nat → Nat →
    Option (caiotask_array × List Nat)
  | a, _, 0 => some (a, [])
  | a, i, fuel + 1 =>
    match caiotask_array.get a i with
    | none => sweepFrom sem a (i + 1) fuel
    | some t =>
      match caio_task_step sem a t with
      | none => none
      | some res =>
        (sweepFrom sem (stepWriteback i res) (i + 1) fuel).map
          (fun p => (p.1, i :: p.2))

/-- One full sweep over the task table. -/
def sweep (sem : CoroSem) (a : caiotask_array) :
    Option (caiotask_array × List Nat) :=
  sweepFrom sem a 0 a.size

/-- `caio_forever` from `src/caio.c`: `while (_tasks.count) { sweep; }` and
then `return EXIT_SUCCESS`.  Fuel bounds the number of sweeps; `none` means
the loop was still running (or a step was invalid) — the C loop simply does
not return in that time.  On exit the function returns `EXIT_SUCCESS = 0`
together with the final table. -/
def caio_forever (sem : CoroSem) : Nat → caiotask_array →
    Option (Int × caiotask_array)
  | 0, _ => none
  | fuel + 1, a =>
    if caiotask_array.taskcount a = 0 then some (0, a)
    else
      match sweep sem a with
      | none => none
      | some p => caio_forever sem fuel p.1

/-- Well-formedness of the task table, as the runtime maintains it: every
registered task records its own slot index, has a non-empty call stack and a
`running_coros` equal to its stack depth. -/
def wfArr (a : caiotask_array) : Bool :=
  (List.range a.size).all (fun i =>
    match caiotask_array.get a i with
    | none => true
    | some t =>
      t.index == i && !t.callstack.items.isEmpty &&
        t.running_coros == t.callstack.items.length)

theorem step_slot (sem : CoroSem)
    (hsem : ∀ c u, ((sem c u).1).index = u.index)
    (a : caiotask_array) (i : Nat) (t : caiotask)
    (hidx : t.index = i) (hne : t.callstack.items ≠ []) :
    ∃ res, caio_task_step sem a t = some res ∧
      (stepWriteback i res).size = a.size ∧
      (∀ j, j ≠ i → caiotask_array.get (stepWriteback i res) j =
        caiotask_array.get a j) := by
  have hsome : (caiocall_stack_last t.callstack).isSome := by
    unfold caiocall_stack_last
    rw [List.getLast?_isSome]
    exact hne
  obtain ⟨c, hc⟩ := Option.isSome_iff_exists.mp hsome
  by_cases hd : (sem c t).2 = caiocoro_status.ccs_done
  · simp only [caio_task_step, hc, hd, if_true]
    by_cases h0 : (sem c t).1.running_coros - 1 = 0
    · rw [if_pos h0]
      refine ⟨_, rfl, ?_, ?_⟩
      · simp [stepWriteback, _caio_task_dispose, caiotask_array.del,
          caiotask_array.size]
      · intro j hj
        simp only [stepWriteback, _caio_task_dispose, caiotask_array.del,
          caiotask_array.get, hsem c t, hidx]
        rw [List.getElem?_set_ne (Ne.symm hj)]
    · rw [if_neg h0]
      refine ⟨_, rfl, ?_, ?_⟩
      · simp [stepWriteback, caiotask_array.size]
      · intro j hj
        simp only [stepWriteback, caiotask_array.get]
        rw [List.getElem?_set_ne (Ne.symm hj)]
  · have hif : ((sem c t).2 = caiocoro_status.ccs_done) = False := by
      simp [hd]
    simp only [caio_task_step, hc, hif, if_false]
    by_cases h0 : (sem c t).1.running_coros = 0
    · rw [if_pos h0]
      refine ⟨_, rfl, ?_, ?_⟩
      · simp [stepWriteback, _caio_task_dispose, caiotask_array.del,
          caiotask_array.size]
      · intro j hj
        simp only [stepWriteback, _caio_task_dispose, caiotask_array.del,
          caiotask_array.get, hsem c t, hidx]
        rw [List.getElem?_set_ne (Ne.symm hj)]
    · rw [if_neg h0]
      refine ⟨_, rfl, ?_, ?_⟩
      · simp [stepWriteback, caiotask_array.size]
      · intro j hj
        simp only [stepWriteback, caiotask_array.get]
        rw [List.getElem?_set_ne (Ne.symm hj)]

theorem wfArr_get {a : caiotask_array} (hwf : wfArr a = true) :
    ∀ j t, caiotask_array.get a j = some t →
      t.index = j ∧ t.callstack.items ≠ [] := by
  intro j t hget
  have hj : j < a.size := by
    unfold caiotask_array.get at hget
    cases hs : a.slots[j]? with
    | none => rw [hs] at hget; exact absurd hget (by simp)
    | some o =>
      show j < a.slots.length
      by_contra hge
      rw [List.getElem?_eq_none (Nat.le_of_not_lt hge)] at hs
      exact Option.noConfusion hs
  have hall := List.all_eq_true.mp hwf j (List.mem_range.mpr hj)
  rw [hget] at hall
  simp only [Bool.and_eq_true, beq_iff_eq, Bool.not_eq_true',
    List.isEmpty_eq_false] at hall
  exact ⟨hall.1.1, hall.1.2⟩

theorem sweepFrom_steps (sem : CoroSem)
    (hsem : ∀ c u, ((sem c u).1).index = u.index) :
    ∀ fuel a i, (∀ j t, i ≤ j → caiotask_array.get a j = some t →
        t.index = j ∧ t.callstack.items ≠ []) →
      a.size = i + fuel →
      ∃ p, sweepFrom sem a i fuel = some p ∧
        p.2 = (List.range' i fuel).filter
          (fun j => (caiotask_array.get a j).isSome) := by
  intro fuel
  induction fuel with
  | zero =>
    intro a i hwf hsz
    exact ⟨(a, []), rfl, by simp⟩
  | succ n ih =>
    intro a i hwf hsz
    rw [List.range'_succ, List.filter_cons]
    cases hg : caiotask_array.get a i with
    | none =>
      obtain ⟨p, hp, hsteps⟩ := ih a (i + 1)
        (fun j t hij => hwf j t (by omega)) (by omega)
      refine ⟨p, ?_, ?_⟩
      · simp only [sweepFrom, hg]
        exact hp
      · rw [hsteps]
        simp
    | some t =>
      obtain ⟨hidx, hne⟩ := hwf i t (Nat.le_refl i) hg
      obtain ⟨res, hres, hsz1, hagree⟩ := step_slot sem hsem a i t hidx hne
      obtain ⟨p, hp, hsteps⟩ := ih (stepWriteback i res) (i + 1)
        (fun j u hij hget => by
          rw [hagree j (by omega)] at hget
          exact hwf j u (by omega) hget)
        (by omega)
      refine ⟨(p.1, i :: p.2), ?_, ?_⟩
      · simp only [sweepFrom, hg, hres, hp, Option.map_some']
      · have hcongr : (List.range' (i + 1) n).filter
            (fun j => (caiotask_array.get (stepWriteback i res) j).isSome) =
            (List.range' (i + 1) n).filter
              (fun j => (caiotask_array.get a j).isSome) := by
          apply List.filter_congr
          intro x hx
          have hxi : i + 1 ≤ x := (List.mem_range'_1.mp hx).1
          rw [hagree x (by omega)]
        simp [hsteps, hcongr]

theorem caio_forever_exit (sem : CoroSem) :
    ∀ fuel a r b, caio_forever sem fuel a = some (r, b) →
      r = 0 ∧ caiotask_array.taskcount b = 0 := by
  intro fuel
  induction fuel with
  | zero =>
    intro a r b h
    exact absurd h (by simp [caio_forever])
  | succ n ih =>
    intro a r b h
    rw [caio_forever] at h
    by_cases h0 : caiotask_array.taskcount a = 0
    · rw [if_pos h0] at h
      injection h with h1
      injection h1 with hr hb
      subst hr
      subst hb
      exact ⟨rfl, h0⟩
    · rw [if_neg h0] at h
      cases hs : sweep sem a with
      | none => rw [hs] at h; exact Option.noConfusion h
      | some p =>
        rw [hs] at h
        exact ih p.1 r b h

/-- C5.  The scheduler loop of `src/caio.c`, for any invocation semantics
that keeps a task in its own slot (`hsem`) and any well-formed table:
(1) one sweep succeeds and steps exactly the occupied slot indices, each
once, in ascending order (the filtered ascending index range);
(2) whenever `caio_forever` returns, it returns `EXIT_SUCCESS = 0` and the
final table has no registered task;
(3) with no registered task the loop exits at once, returning success and
leaving the table untouched;
(4) with at least one registered task the loop performs a sweep and
continues with the swept table. -/
theorem forever_round_robin (sem : CoroSem) (a : caiotask_array) (fuel : Nat)
    (hsem : ∀ c u, ((sem c u).1).index = u.index)
    (hwf : wfArr a = true) :
    (∃ p, sweep sem a = some p ∧
      p.2 = (List.range a.size).filter
        (fun i => (caiotask_array.get a i).isSome)) ∧
    (∀ f b r a2, caio_forever sem f b = some (r, a2) →
      r = 0 ∧ caiotask_array.taskcount a2 = 0) ∧
    (caiotask_array.taskcount a = 0 →
      caio_forever sem (fuel + 1) a = some (0, a)) ∧
    (caiotask_array.taskcount a ≠ 0 →
      caio_forever sem (fuel + 1) a =
        (sweep sem a).bind (fun p => caio_forever sem fuel p.1)) := by
  refine ⟨?_, ?_, ?_, ?_⟩
  · obtain ⟨p, hp, hsteps⟩ := sweepFrom_steps sem hsem a.size a 0
      (fun j t hij hget => wfArr_get hwf j t hget) (by omega)
    refine ⟨p, hp, ?_⟩
    rw [hsteps, List.range_eq_range']
  · intro f b r a2 h
    exact caio_forever_exit sem f b r a2 h
  · intro h0
    rw [caio_forever, if_pos h0]
  · intro h0
    rw [caio_forever, if_neg h0]
    cases hs : sweep sem a with
    | none => rfl
    | some p => rfl

/-- The first task of the C5 witness table (slot 0). -/
def c5task0 : caiotask :=
  { index := 0, running_coros := 1,
    callstack := { items := [{ line := 0, coro := 1, state := 0 }], size := 2 } }

/-- The second task of the C5 witness table (slot 2). -/
def c5task2 : caiotask :=
  { index := 2, running_coros := 1,
    callstack := { items := [{ line := 0, coro := 2, state := 0 }], size := 2 } }

/-- The C5 witness table: tasks in slots 0 and 2, a hole in slot 1. -/
def c5arr : caiotask_array := ⟨[some c5task0, none, some c5task2]⟩

/-- The C5 witness invocation semantics: every invocation completes without
touching its task. -/
def c5sem : CoroSem := fun _ u => (u, caiocoro_status.ccs_done)

/-- C5, witness: `forever_round_robin` at the concrete three-slot table. -/
theorem forever_round_robin_witness :
    ((∀ c u, ((c5sem c u).1).index = u.index) ∧ wfArr c5arr = true) ∧
    ((∃ p, sweep c5sem c5arr = some p ∧
      p.2 = (List.range c5arr.size).filter
        (fun i => (caiotask_array.get c5arr i).isSome)) ∧
    (∀ f b r a2, caio_forever c5sem f b = some (r, a2) →
      r = 0 ∧ caiotask_array.taskcount a2 = 0) ∧
    (caiotask_array.taskcount c5arr = 0 →
      caio_forever c5sem (3 + 1) c5arr = some (0, c5arr)) ∧
    (caiotask_array.taskcount c5arr ≠ 0 →
      caio_forever c5sem (3 + 1) c5arr =
        (sweep c5sem c5arr).bind (fun p => caio_forever c5sem 3 p.1))) :=
  ⟨⟨fun _ _ => rfl, by decide⟩,
    forever_round_robin c5sem c5arr 3 (fun _ _ => rfl) (by decide)⟩

/-! ### Claim C9: `caio_io_uring_init` result propagation -/

/-- `caio_io_uring_init` from `src/caio/io_uring.c`, reduced to its result
propagation.  Oracles: `setupfd` is the `io_uring_setup` syscall result,
`single_mmap` whether the kernel reported `IORING_FEAT_SINGLE_MMAP`, and
`sq_ok`/`cq_ok`/`sqes_ok` whether the three `mmap` calls succeed.  The code
returns `-1` when setup or the submission-ring mapping fails; in single-mmap
mode the completion ring shares the submission mapping, otherwise a failing
completion-ring mapping returns `1`; a failing entries-array mapping also
returns `1`; success returns `0`. -/
def caio_io_uring_init (setupfd : Int) (single_mmap : Bool) (sq_ok : Bool)
    (cq_ok : Bool) (sqes_ok : Bool) : Int :=
  if setupfd < 0 then -1
  else if sq_ok = false then -1
  else if single_mmap then (if sqes_ok = false then 1 else 0)
  else if cq_ok = false then 1
  else if sqes_ok = false then 1
  else 0

/-- C9, counterexample.  The claim states the function returns a negative
result whenever any memory-mapping step fails.  When setup and the
submission-ring mapping succeed, single-mmap mode is absent and the separate
completion-ring mapping fails, the code executes `return 1;` — a positive
result, not a negative one. -/
theorem io_uring_cq_mmap_failure_positive :
    caio_io_uring_init 3 false true false true = 1 ∧
    ¬ (caio_io_uring_init 3 false true false true < 0) := by
  decide

/-- C9, amended.  `caio_io_uring_init` returns nonzero on every failure — but
with mixed signs: `-1` for a failing `io_uring_setup` or submission-ring
mapping, `+1` for a failing completion-ring or entries-array mapping — and
returns `0` exactly when every step it performs succeeds (in single-mmap
mode no separate completion-ring mapping is performed). -/
theorem io_uring_init_result_sign (setupfd : Int) (sm sq cq sqes : Bool) :
    (setupfd < 0 → caio_io_uring_init setupfd sm sq cq sqes = -1) ∧
    (0 ≤ setupfd → sq = false →
      caio_io_uring_init setupfd sm sq cq sqes = -1) ∧
    (0 ≤ setupfd → sq = true → sm = false → cq = false →
      caio_io_uring_init setupfd sm sq cq sqes = 1) ∧
    (0 ≤ setupfd → sq = true → (sm = true ∨ cq = true) → sqes = false →
      caio_io_uring_init setupfd sm sq cq sqes = 1) ∧
    (caio_io_uring_init setupfd sm sq cq sqes = 0 ↔
      (0 ≤ setupfd ∧ sq = true ∧ (sm = true ∨ cq = true) ∧ sqes = true)) := by
  unfold caio_io_uring_init
  rcases Int.lt_or_le setupfd 0 with hlt | hle
  · rw [if_pos hlt]
    refine ⟨fun _ => rfl, fun h => absurd hlt (by omega), fun h => absurd hlt
      (by omega), fun h => absurd hlt (by omega), ?_⟩
    constructor
    · intro h
      exact absurd h (by decide)
    · intro ⟨h, _⟩
      exact absurd hlt (by omega)
  · rw [if_neg (by omega)]
    cases sq with
    | false => simp
    | true =>
      simp only [Bool.true_eq_false, if_false, if_true]
      cases sm with
      | true =>
        cases sqes with
        | false => simp [hle]
        | true => simp [hle]
      | false =>
        cases cq with
        | false => simp [hle]
        | true =>
          cases sqes with
          | false => simp [hle]
          | true => simp [hle]

/-- C9, witness: the amended theorem applied at a run where setup and the
submission-ring mapping succeed and the separate completion-ring mapping
fails, giving the positive result `1`. -/
theorem io_uring_init_result_sign_witness :
    ((0 : Int) ≤ 3 ∧ (true : Bool) = true ∧ (false : Bool) = false) ∧
    caio_io_uring_init 3 false true false true = 1 :=
  ⟨⟨by decide, rfl, rfl⟩,
    (io_uring_init_result_sign 3 false true false true).2.2.1
      (by decide) rfl rfl rfl⟩

/-! ### Claim C10: the error-protocol macros of `src/caio/caio.h` -/

/-- `CAIO_RETURN(task)`: clear the error number and set status
`CAIO_TERMINATING`. -/
def CAIO_RETURN (t : caio_task) : caio_task :=
  { t with eno := 0, status := CAIO_TERMINATING }

/-- `CAIO_THROW(task, n)`: set the error number to `n` and status
`CAIO_TERMINATING`. -/
def CAIO_THROW (t : caio_task) (n : Int) : caio_task :=
  { t with eno := n, status := CAIO_TERMINATING }

/-- `CAIO_RETHROW(task)`: set status `CAIO_TERMINATING`, leaving the error
number alone. -/
def CAIO_RETHROW (t : caio_task) : caio_task :=
  { t with status := CAIO_TERMINATING }

/-- `CAIO_HASERROR(task)`: the error number is nonzero. -/
def CAIO_HASERROR (t : caio_task) : Bool :=
  t.eno != 0

/-- `CAIO_ISERROR(task, e)`: `CAIO_HASERROR(task) && task->eno == e`. -/
def CAIO_ISERROR (t : caio_task) (e : Int) : Bool :=
  CAIO_HASERROR t && t.eno == e

/-- C10.  The control-flow macros keep the error field consistent:
`CAIO_RETURN` zeroes `eno` and sets `CAIO_TERMINATING`; `CAIO_THROW` sets
`eno = n` and `CAIO_TERMINATING`; `CAIO_RETHROW` sets `CAIO_TERMINATING`
leaving `eno` unchanged; `CAIO_ISERROR` holds exactly when `eno` is nonzero
and equal to `e`; and after a normal `CAIO_RETURN` the task never reports
`CAIO_HASERROR`. -/
theorem coro_error_protocol (t : caio_task) (n e : Int) :
    (CAIO_RETURN t).eno = 0 ∧
    (CAIO_RETURN t).status = CAIO_TERMINATING ∧
    (CAIO_THROW t n).eno = n ∧
    (CAIO_THROW t n).status = CAIO_TERMINATING ∧
    (CAIO_RETHROW t).eno = t.eno ∧
    (CAIO_RETHROW t).status = CAIO_TERMINATING ∧
    (CAIO_ISERROR t e = true ↔ (t.eno ≠ 0 ∧ t.eno = e)) ∧
    CAIO_HASERROR (CAIO_RETURN t) = false := by
  refine ⟨rfl, rfl, rfl, rfl, rfl, rfl, ?_, ?_⟩
  · simp [CAIO_ISERROR, CAIO_HASERROR]
  · simp [CAIO_HASERROR, CAIO_RETURN]
